import Mathlib

/-!
Verification of the revset subsystem (parser, symbol resolver, evaluator) and the
workspace loading/initialization logic of the `jj` (jujube) version-control tool.

The revset subsystem itself (`src/lib/src/revset.rs`) is not present in the source
tree; only its test suite (`src/lib/tests/test_revset.rs`) is. Its definitions below
are therefore modelled from the specification (spec.md sections 3, 4, 6, 7), faithful
to the spec's words, and checked against the behaviors pinned down by the test suite.
The workspace definitions are translated directly from `src/lib/src/workspace.rs`.
-/

/-! ## Revset data model -/

/-- Modelled from the spec: the user-facing resolver error taxonomy of section 7
(`src/lib/src/revset.rs` is missing from the source tree; only tests are present).
`NoSuchRevision(token)`: the token matched no resolution rule.
`AmbiguousCommitIdPrefix(token)`: a hex prefix matched two or more commits. -/
inductive RevsetError where
  | NoSuchRevision (symbol : String)
  | AmbiguousCommitIdPrefix (symbol : String)
deriving DecidableEq, Repr

/-- Modelled from the spec: `ParseError` carries the offending text (section 7:
"surfaced to the user with the offending text"). -/
inductive ParseError where
  | SyntaxError (text : String)
deriving DecidableEq, Repr

/-- Modelled from the spec: the closed tagged-variant expression tree of section 3:
`Symbol(text)`, `Parents(child)`, `Ancestors(child)`. -/
inductive RevsetExpression where
  | Symbol (s : String)
  | Parents (e : RevsetExpression)
  | Ancestors (e : RevsetExpression)
deriving DecidableEq, Repr

/-- Modelled from the spec: a commit is an immutable record `{id, parent_ids}` where
parent order is authorship order, first parent first (section 3). Commit ids are kept
in their textual form, lowercase hex. -/
structure Commit where
  id : String
  parents : List String
deriving DecidableEq, Repr

/-- Modelled from the spec: the repository snapshot visible to the revset core —
the store's commits (with the distinguished root commit's id), the view's checkout
pointer, and the name-to-commit reference table (sections 3 and 6). -/
structure Repo where
  commits : List Commit
  root : String
  checkout : String
  git_refs : List (String × String)
deriving DecidableEq, Repr

/-! ## Parser -/

/-- Modelled from the spec: a symbol token consists of non-whitespace,
non-reserved-operator characters (section 4.1); the reserved operator characters of
the grammar are the colon and the star. -/
def isSymbolChar (c : Char) : Bool :=
  !c.isWhitespace && c != ':' && c != '*'

/-- Modelled from the spec, section 4.1: `*:` prefixed to an expression denotes
`Ancestors`, `:` prefixed denotes `Parents`, a bare token of symbol characters is a
`Symbol`; empty input, dangling operators and unrecognized syntax are `ParseError`s. -/
def parseChars : List Char → Except ParseError RevsetExpression
  | '*' :: ':' :: rest => (parseChars rest).map RevsetExpression.Ancestors
  | ':' :: rest => (parseChars rest).map RevsetExpression.Parents
  | cs =>
    if !cs.isEmpty && cs.all isSymbolChar then
      Except.ok (RevsetExpression.Symbol (String.mk cs))
    else
      Except.error (ParseError.SyntaxError (String.mk cs))

/-- Modelled from the spec: `parse(text) -> Result<Expression, ParseError>`
(section 4.1); purely syntactic, no repository access. -/
def parse (s : String) : Except ParseError RevsetExpression :=
  parseChars s.toList

/-! ## Symbol resolver -/

/-- Modelled from the spec: a lowercase hexadecimal digit (sections 3 and 6: textual
commit ids are lowercase hex). -/
def isHexChar (c : Char) : Bool :=
  c.isDigit || ('a' ≤ c && c ≤ 'f')

/-- Modelled from the spec: a token consisting solely of lowercase hexadecimal
digits, possibly empty (section 6). -/
def isHexString (s : String) : Bool :=
  s.toList.all isHexChar

/-- Modelled from the spec: the set of all commit ids of the store, over which prefix
lookup operates (section 6: "Prefix lookup over the set of all commit ids"). -/
def commitIds (repo : Repo) : List String :=
  (repo.commits.map Commit.id).dedup

/-- Textual prefix test on strings, via their character lists (extensionally the
standard string prefix test). -/
def strPrefix (p s : String) : Bool :=
  p.toList.isPrefixOf s.toList

/-- Modelled from the spec: the commit ids beginning with the given hex prefix
(section 4.2, step 3). -/
def prefixMatches (repo : Repo) (s : String) : List String :=
  (commitIds repo).filter (fun i => strPrefix s i)

/-- Modelled from the spec: exact-key lookup into the ref-name table (section 6:
"an exact-key lookup into the ref-name table", no glob matching). -/
def lookupRef : List (String × String) → String → Option String
  | [], _ => none
  | (k, v) :: rest, s => if k = s then some v else lookupRef rest s

/-- First-hit-wins combination of two lookup outcomes. -/
def orO : Option String → Option String → Option String
  | some v, _ => some v
  | none, o => o

/-- Modelled from the spec: reference-table resolution, rules tried in order, first
hit wins (section 4.2, step 4): (a) a symbol starting with `refs/` as an exact key;
(b) `heads/<name>` as `refs/heads/<name>`; (c) `tags/<name>` as `refs/tags/<name>`;
(d) a bare name as `refs/heads/<symbol>` then `refs/tags/<symbol>`;
(e) `<remote>/<branch>` as `refs/remotes/<remote>/<branch>`. -/
def resolveRef (refs : List (String × String)) (s : String) : Option String :=
  orO (if strPrefix "refs/" s then lookupRef refs s else none)
  (orO (if strPrefix "heads/" s then lookupRef refs ("refs/" ++ s) else none)
  (orO (if strPrefix "tags/" s then lookupRef refs ("refs/" ++ s) else none)
  (orO (lookupRef refs ("refs/heads/" ++ s))
  (orO (lookupRef refs ("refs/tags/" ++ s))
       (lookupRef refs ("refs/remotes/" ++ s))))))

/-- Modelled from the spec: `resolve(view, store, symbol)` (section 4.2), strict
precedence, first matching rule terminal: (1) `"@"` is the view's checkout, absolute
over any ref named `"@"`; (2) `"root"` is the store's root commit, likewise absolute;
(3) an all-hex symbol (including the empty string) is a commit-id prefix — one match
returns it, two or more fail `AmbiguousCommitIdPrefix`, zero falls through;
(4) reference-table resolution; (5) otherwise `NoSuchRevision`. -/
def resolve_symbol (repo : Repo) (s : String) : Except RevsetError String :=
  if s = "@" then Except.ok repo.checkout
  else if s = "root" then Except.ok repo.root
  else if isHexString s then
    match prefixMatches repo s with
    | [i] => Except.ok i
    | [] =>
      match resolveRef repo.git_refs s with
      | some i => Except.ok i
      | none => Except.error (RevsetError.NoSuchRevision s)
    | _ => Except.error (RevsetError.AmbiguousCommitIdPrefix s)
  else
    match resolveRef repo.git_refs s with
    | some i => Except.ok i
    | none => Except.error (RevsetError.NoSuchRevision s)

/-! ## Evaluator -/

/-- Modelled from the spec: the parent ids of a commit as stored (section 6
`get_commit`); a commit id absent from the store contributes no parents. -/
def getParents (repo : Repo) (i : String) : List String :=
  match repo.commits.find? (fun c => c.id = i) with
  | some c => c.parents
  | none => []

/-- Modelled from the spec: the finite id universe an `Ancestors` walk can touch —
the traversal roots together with every stored commit id and every stored parent
pointer, duplicates removed. -/
def walkUniverse (repo : Repo) (roots : List String) : List String :=
  (roots ++ repo.commits.flatMap (fun c => c.id :: c.parents)).dedup

/-- Modelled from the spec, section 4.3 `Ancestors`: an explicit-stack pre-order
depth-first walk with one shared deduplication set, here represented by its
complement `unvisited`. Popping an unvisited commit emits it, marks it visited, and
pushes its parents so that they are visited in reverse authorship order; a visited
commit is skipped. -/
def dfsWalk (par : String → List String) (unvisited stack : List String) :
    List String :=
  match stack with
  | [] => []
  | c :: rest =>
    if h : c ∈ unvisited then
      c :: dfsWalk par (unvisited.erase c) ((par c).reverse ++ rest)
    else
      dfsWalk par unvisited rest
termination_by (unvisited.length, stack.length)
decreasing_by
  · apply Prod.Lex.left
    have h1 : (unvisited.erase c).length = unvisited.length - 1 :=
      List.length_erase_of_mem h
    have h2 : 0 < unvisited.length := List.length_pos_of_mem h
    omega
  · apply Prod.Lex.right
    simp

/-- Modelled from the spec: `evaluate(view, store, expr)` (section 4.3).
`Symbol` resolves to a one-element sequence, a resolver failure aborting the whole
evaluation; `Parents` emits, per input commit in order, its parent ids in reverse
authorship order; `Ancestors` runs the shared-dedup depth-first walk from the roots
in their order. -/
def evaluate (repo : Repo) : RevsetExpression → Except RevsetError (List String)
  | RevsetExpression.Symbol s => (resolve_symbol repo s).map (fun i => [i])
  | RevsetExpression.Parents e =>
    (evaluate repo e).map (fun S => S.flatMap (fun c => (getParents repo c).reverse))
  | RevsetExpression.Ancestors e =>
    (evaluate repo e).map (fun S => dfsWalk (getParents repo) (walkUniverse repo S) S)

/-- The single symbol leaf of an expression (every expression of the closed variant
type is a chain of unary operators over one `Symbol`). -/
def leafSymbol : RevsetExpression → String
  | RevsetExpression.Symbol s => s
  | RevsetExpression.Parents e => leafSymbol e
  | RevsetExpression.Ancestors e => leafSymbol e

/-! ## Workspace model (`src/lib/src/workspace.rs`)

Filesystem paths are modelled as lists of components from the filesystem root; the
root path is the empty list, `Path::join` appends a component, and `Path::parent`
drops the last component (returning `none` at the root, as in Rust). The filesystem
itself is a snapshot of which paths exist as directories and which as other entries.
-/

/-- A filesystem snapshot: the directory paths and the non-directory entry paths. -/
structure FileSystem where
  dirs : List (List String)
  files : List (List String)
deriving DecidableEq, Repr

/-- Rust `Path::parent`: `none` at the root, otherwise the path without its last
component. -/
def parentDir : List String → Option (List String)
  | [] => none
  | a :: rest => some ((a :: rest).dropLast)

/-- Rust `Path::is_dir`: the path exists and is a directory. -/
def isDir (fs : FileSystem) (p : List String) : Bool :=
  decide (p ∈ fs.dirs)

/-- Rust `Path::exists`: the path exists as any kind of entry. -/
def pathExists (fs : FileSystem) (p : List String) : Bool :=
  decide (p ∈ fs.dirs) || decide (p ∈ fs.files)

/-- Translated from `WorkspaceLoadError` (`workspace.rs`). -/
inductive WorkspaceLoadError where
  | NoWorkspaceHere (path : List String)
deriving DecidableEq, Repr

/-- Translated from `WorkspaceInitError` (`workspace.rs`). -/
inductive WorkspaceInitError where
  | DestinationExists (path : List String)
deriving DecidableEq, Repr

/-- Translated from `find_repo_dir` (`workspace.rs`): walk upward from
`workspace_root`, returning the first `<dir>/.jj` that is a directory, or `none`
when the filesystem root is passed without a hit. -/
def find_repo_dir (fs : FileSystem) (workspace_root : List String) :
    Option (List String) :=
  if isDir fs (workspace_root ++ [".jj"]) then some (workspace_root ++ [".jj"])
  else
    match h : parentDir workspace_root with
    | some wc_dir_parent => find_repo_dir fs wc_dir_parent
    | none => none
termination_by workspace_root.length
decreasing_by
  cases workspace_root with
  | nil => simp [parentDir] at h
  | cons a rest =>
    simp only [parentDir, Option.some.injEq] at h
    subst h
    simp only [List.length_dropLast, List.length_cons]
    omega

/-- Translated from `Workspace::load` (`workspace.rs`): locate the repo directory
via `find_repo_dir`, failing with `NoWorkspaceHere(workspace_path)` when there is
none, and otherwise take the workspace root to be the repo directory's parent. The
`RepoLoader`/`WorkingCopy` construction on the success path touches no further
control flow and is outside the modelled state, so the function returns the computed
workspace root. -/
def Workspace.load (fs : FileSystem) (workspace_path : List String) :
    Except WorkspaceLoadError (List String) :=
  match find_repo_dir fs workspace_path with
  | none => Except.error (WorkspaceLoadError.NoWorkspaceHere workspace_path)
  | some repo_path => Except.ok ((parentDir repo_path).getD [])

/-- Translated from `create_jj_dir` (`workspace.rs`): fail with
`DestinationExists(<workspace_root>/.jj)` when any entry named `.jj` already exists
under the workspace root, otherwise create the directory. -/
def create_jj_dir (fs : FileSystem) (workspace_root : List String) :
    Except WorkspaceInitError (List String × FileSystem) :=
  let jj_dir := workspace_root ++ [".jj"]
  if pathExists fs jj_dir then
    Except.error (WorkspaceInitError.DestinationExists jj_dir)
  else
    Except.ok (jj_dir, { fs with dirs := jj_dir :: fs.dirs })

/-- Translated from `Workspace::init_local` (`workspace.rs`): `create_jj_dir` first,
propagating its error with the filesystem untouched. The subsequent
`ReadonlyRepo::init_local` and working-copy initialization are not in the source
tree; they are abstracted as the arbitrary state transformer `rest` applied to the
created `.jj` directory. Returns the workspace root on success. -/
def Workspace.init_local (rest : FileSystem → List String → FileSystem)
    (fs : FileSystem) (workspace_root : List String) :
    Except WorkspaceInitError (List String) × FileSystem :=
  match create_jj_dir fs workspace_root with
  | Except.error e => (Except.error e, fs)
  | Except.ok (jj_dir, fs1) => (Except.ok workspace_root, rest fs1 jj_dir)

/-- Translated from `Workspace::init_internal_git` (`workspace.rs`): identical
control flow to `init_local`, with `ReadonlyRepo::init_internal_git` (not in the
source tree) abstracted as `rest`. -/
def Workspace.init_internal_git (rest : FileSystem → List String → FileSystem)
    (fs : FileSystem) (workspace_root : List String) :
    Except WorkspaceInitError (List String) × FileSystem :=
  match create_jj_dir fs workspace_root with
  | Except.error e => (Except.error e, fs)
  | Except.ok (jj_dir, fs1) => (Except.ok workspace_root, rest fs1 jj_dir)

/-- Translated from `Workspace::init_external_git` (`workspace.rs`): identical
control flow to `init_local`, with `ReadonlyRepo::init_external_git` (not in the
source tree) abstracted as `rest`, which also receives the external git repo path. -/
def Workspace.init_external_git
    (rest : FileSystem → List String → List String → FileSystem)
    (fs : FileSystem) (workspace_root git_repo_path : List String) :
    Except WorkspaceInitError (List String) × FileSystem :=
  match create_jj_dir fs workspace_root with
  | Except.error e => (Except.error e, fs)
  | Except.ok (jj_dir, fs1) => (Except.ok workspace_root, rest fs1 jj_dir git_repo_path)

/-! ## Concrete repositories and filesystems used as test vectors -/

/-- The graph of `test_evaluate_expression_ancestors`: a chain
root ← c1 ← c2 ← c3, plus c4 with parents [c1, c3], with short lowercase-hex ids. -/
def repoA : Repo :=
  { commits :=
      [ { id := "00", parents := [] }
      , { id := "a1", parents := ["00"] }
      , { id := "b2", parents := ["a1"] }
      , { id := "c3", parents := ["b2"] }
      , { id := "d4", parents := ["a1", "c3"] } ]
  , root := "00"
  , checkout := "d4"
  , git_refs := [] }

/-- The graph of `test_evaluate_expression_parents`: c4 is a merge commit created
with parents [c2, c3] in that order (c2's id is "b2", c3's id is "c3"). -/
def repoP : Repo :=
  { commits :=
      [ { id := "00", parents := [] }
      , { id := "a1", parents := [] }
      , { id := "b2", parents := ["a1"] }
      , { id := "c3", parents := [] }
      , { id := "d4", parents := ["b2", "c3"] } ]
  , root := "00"
  , checkout := "b2"
  , git_refs := [] }

/-- The setting of `test_resolve_symbol_commit_id`: three commits whose ids share
the prefix "04", diverging at the third character. -/
def repoH : Repo :=
  { commits :=
      [ { id := "0454", parents := [] }
      , { id := "045f", parents := [] }
      , { id := "0468", parents := [] } ]
  , root := "0454"
  , checkout := "0454"
  , git_refs := [] }

/-- The ref table of `test_resolve_symbol_git_refs`: both `refs/heads/branch` and
`refs/tags/branch` exist (targets "e5" and "f6"), plus a plain tag, a remote-tracking
branch, and table entries literally named `"@"` and `"root"`. -/
def repoR : Repo :=
  { commits := [ { id := "00", parents := [] } ]
  , root := "00"
  , checkout := "00"
  , git_refs :=
      [ ("refs/heads/branch", "e5")
      , ("refs/tags/branch", "f6")
      , ("refs/tags/tag", "f6")
      , ("refs/remotes/origin/remote-branch", "b2")
      , ("@", "f6")
      , ("root", "f6") ] }

/-- A filesystem whose `.jj` repo directory sits one level above the load path. -/
def fsLoad : FileSystem :=
  { dirs := [["home"], ["home", "user"], ["home", "user", ".jj"],
             ["home", "user", "proj"]]
  , files := [] }

/-- A filesystem in which the init destination `.jj` already exists as a file. -/
def fsInit : FileSystem :=
  { dirs := [["work"]]
  , files := [["work", ".jj"]] }
/-! ## Equations and invariants of the depth-first walk -/

theorem dfsWalk_nil (par : String → List String) (u : List String) :
    dfsWalk par u [] = [] := by
  rw [dfsWalk]

theorem dfsWalk_cons_mem (par : String → List String) (u : List String)
    (c : String) (rest : List String) (h : c ∈ u) :
    dfsWalk par u (c :: rest)
      = c :: dfsWalk par (u.erase c) ((par c).reverse ++ rest) := by
  rw [dfsWalk]
  simp [h]

theorem dfsWalk_cons_not_mem (par : String → List String) (u : List String)
    (c : String) (rest : List String) (h : c ∉ u) :
    dfsWalk par u (c :: rest) = dfsWalk par u rest := by
  rw [dfsWalk]
  simp [h]

/-- Every commit the walk emits was unvisited when the walk started. -/
theorem dfsWalk_subset (par : String → List String) (u s : List String) :
    ∀ x ∈ dfsWalk par u s, x ∈ u := by
  induction u, s using dfsWalk.induct par with
  | case1 u => simp [dfsWalk_nil]
  | case2 u c rest h ih =>
    rw [dfsWalk_cons_mem par u c rest h]
    intro x hx
    rcases List.mem_cons.mp hx with rfl | hx
    · exact h
    · exact List.mem_of_mem_erase (ih x hx)
  | case3 u c rest h ih =>
    rw [dfsWalk_cons_not_mem par u c rest h]
    exact ih

/-- Every unvisited commit sitting on the stack is eventually emitted. -/
theorem dfsWalk_mem_of_stack (par : String → List String) (u s : List String) :
    ∀ x ∈ s, x ∈ u → x ∈ dfsWalk par u s := by
  induction u, s using dfsWalk.induct par with
  | case1 u => simp
  | case2 u c rest h ih =>
    rw [dfsWalk_cons_mem par u c rest h]
    intro x hx hxu
    rcases List.mem_cons.mp hx with rfl | hx
    · exact List.mem_cons_self _ _
    · by_cases hxc : x = c
      · subst hxc; exact List.mem_cons_self _ _
      · have hxe : x ∈ u.erase c := (List.mem_erase_of_ne hxc).mpr hxu
        exact List.mem_cons_of_mem _
          (ih x (List.mem_append_right _ hx) hxe)
  | case3 u c rest h ih =>
    rw [dfsWalk_cons_not_mem par u c rest h]
    intro x hx hxu
    rcases List.mem_cons.mp hx with rfl | hx
    · exact absurd hxu h
    · exact ih x hx hxu

/-- The walk never emits the same commit twice: the shared deduplication set makes
the output duplicate-free. -/
theorem dfsWalk_nodup (par : String → List String) (u s : List String)
    (hu : u.Nodup) : (dfsWalk par u s).Nodup := by
  induction u, s using dfsWalk.induct par with
  | case1 u => simp [dfsWalk_nil]
  | case2 u c rest h ih =>
    rw [dfsWalk_cons_mem par u c rest h]
    refine List.nodup_cons.mpr ⟨?_, ih (hu.erase c)⟩
    intro hc
    exact hu.not_mem_erase (dfsWalk_subset par _ _ c hc)
  | case3 u c rest h ih =>
    rw [dfsWalk_cons_not_mem par u c rest h]
    exact ih hu

/-- Each parent of an emitted commit is either emitted by the same walk or was
already visited before the walk started. -/
theorem dfsWalk_closed (par : String → List String) (u s : List String) :
    ∀ d ∈ dfsWalk par u s, ∀ p ∈ par d, p ∈ dfsWalk par u s ∨ p ∉ u := by
  induction u, s using dfsWalk.induct par with
  | case1 u => simp [dfsWalk_nil]
  | case2 u c rest h ih =>
    rw [dfsWalk_cons_mem par u c rest h]
    intro d hd p hp
    rcases List.mem_cons.mp hd with heq | hd
    · by_cases hpc : p = c
      · exact Or.inl (hpc ▸ List.mem_cons_self _ _)
      · by_cases hpu : p ∈ u.erase c
        · refine Or.inl (List.mem_cons_of_mem _ ?_)
          refine dfsWalk_mem_of_stack par _ _ p ?_ hpu
          exact List.mem_append_left _ (List.mem_reverse.mpr (heq ▸ hp))
        · refine Or.inr (fun hpu2 => hpu ?_)
          exact (List.mem_erase_of_ne hpc).mpr hpu2
    · rcases ih d hd p hp with hin | hout
      · exact Or.inl (List.mem_cons_of_mem _ hin)
      · by_cases hpc : p = c
        · exact Or.inl (hpc ▸ List.mem_cons_self _ _)
        · refine Or.inr (fun hpu => hout ?_)
          exact (List.mem_erase_of_ne hpc).mpr hpu
  | case3 u c rest h ih =>
    rw [dfsWalk_cons_not_mem par u c rest h]
    exact ih

/-- The id universe of a walk has no duplicates. -/
theorem walkUniverse_nodup (repo : Repo) (roots : List String) :
    (walkUniverse repo roots).Nodup :=
  List.nodup_dedup _

/-- Stored parent pointers never leave the walk's id universe. -/
theorem getParents_subset_walkUniverse (repo : Repo) (roots : List String)
    (i : String) : ∀ x ∈ getParents repo i, x ∈ walkUniverse repo roots := by
  intro x hx
  unfold getParents at hx
  unfold walkUniverse
  rcases hf : repo.commits.find? (fun c => c.id = i) with _ | c
  · rw [hf] at hx
    simp at hx
  · rw [hf] at hx
    have hc : c ∈ repo.commits := List.mem_of_find?_eq_some hf
    refine List.mem_dedup.mpr (List.mem_append_right _ ?_)
    exact List.mem_flatMap.mpr ⟨c, hc, List.mem_cons_of_mem _ hx⟩

/-! ## Claim theorems: symbol resolution -/

/-- C1: for every repository view and ref table, resolving `"@"` returns the commit
at the view's checkout and resolving `"root"` returns the store's root commit; the
quantification over all `Repo` values covers ref tables with entries literally named
`"@"` or `"root"`, which are never honored; the concrete conjuncts exercise exactly
that shadowing table. -/
theorem resolve_reserved_symbols_absolute (repo : Repo) :
    resolve_symbol repo "@" = Except.ok repo.checkout ∧
    resolve_symbol repo "root" = Except.ok repo.root ∧
    resolve_symbol repoR "@" = Except.ok "00" ∧
    resolve_symbol repoR "root" = Except.ok "00" := by
  refine ⟨?_, ?_, rfl, rfl⟩
  · simp [resolve_symbol]
  · simp [resolve_symbol]

/-- C7: `parse` is a pure deterministic function of the query text (it takes no
repository argument at all), with the four specified values. -/
theorem parse_pure_examples :
    parse "@" = Except.ok (RevsetExpression.Symbol "@") ∧
    parse "foo" = Except.ok (RevsetExpression.Symbol "foo") ∧
    parse ":@" = Except.ok (RevsetExpression.Parents (RevsetExpression.Symbol "@")) ∧
    parse "*:@"
      = Except.ok (RevsetExpression.Ancestors (RevsetExpression.Symbol "@")) :=
  ⟨rfl, rfl, rfl, rfl⟩

/-- C8: when the resolution of an expression's symbol leaf fails, the whole
evaluation aborts with that resolver error returned unchanged — no partial result
sequence exists (the result type carries either an error or a sequence, never
both). -/
theorem evaluate_aborts_on_resolver_error (repo : Repo) (err : RevsetError) :
    ∀ e : RevsetExpression,
      resolve_symbol repo (leafSymbol e) = Except.error err →
      evaluate repo e = Except.error err := by
  intro e
  induction e with
  | Symbol s =>
    intro h
    simp only [leafSymbol] at h
    simp [evaluate, h, Except.map]
  | Parents e ih =>
    intro h
    simp only [leafSymbol] at h
    simp [evaluate, ih h, Except.map]
  | Ancestors e ih =>
    intro h
    simp only [leafSymbol] at h
    simp [evaluate, ih h, Except.map]

/-- Witness for C8 at a concrete failing symbol. -/
theorem evaluate_aborts_on_resolver_error_witness :
    evaluate repoA (RevsetExpression.Parents (RevsetExpression.Symbol "zz"))
      = Except.error (RevsetError.NoSuchRevision "zz") :=
  evaluate_aborts_on_resolver_error repoA (RevsetError.NoSuchRevision "zz")
    (RevsetExpression.Parents (RevsetExpression.Symbol "zz")) rfl

/-- C4: evaluating `Parents(e)` emits, per commit of `e`'s sequence in that order,
its parent ids in reverse authorship order; `Parents` of the root commit (which has
no stored parents) is the empty sequence; and on `repoP`, whose merge commit "d4"
was created with parents ["b2", "c3"], the query `":d4"` yields ["c3", "b2"]. -/
theorem evaluate_parents_reverse_order :
    (∀ (repo : Repo) (e : RevsetExpression) (S : List String),
        evaluate repo e = Except.ok S →
        evaluate repo (RevsetExpression.Parents e)
          = Except.ok (S.flatMap fun c => (getParents repo c).reverse)) ∧
    (∀ repo : Repo, getParents repo repo.root = [] →
        evaluate repo (RevsetExpression.Parents (RevsetExpression.Symbol "root"))
          = Except.ok []) ∧
    parse ":d4"
      = Except.ok (RevsetExpression.Parents (RevsetExpression.Symbol "d4")) ∧
    evaluate repoP (RevsetExpression.Parents (RevsetExpression.Symbol "d4"))
      = Except.ok ["c3", "b2"] := by
  refine ⟨?_, ?_, rfl, rfl⟩
  · intro repo e S h
    simp [evaluate, h, Except.map]
  · intro repo h
    simp [evaluate, resolve_symbol, Except.map, h]

/-- Witness for C4 at concrete inputs discharging both hypotheses. -/
theorem evaluate_parents_reverse_order_witness :
    evaluate repoP (RevsetExpression.Parents (RevsetExpression.Symbol "d4"))
      = Except.ok ((["d4"] : List String).flatMap fun c => (getParents repoP c).reverse) ∧
    evaluate repoP (RevsetExpression.Parents (RevsetExpression.Symbol "root"))
      = Except.ok [] :=
  ⟨evaluate_parents_reverse_order.1 repoP (RevsetExpression.Symbol "d4") ["d4"] rfl,
   evaluate_parents_reverse_order.2.1 repoP rfl⟩

/-- C5: reference-table resolution tries its rules in a fixed order with the first
hit terminal. The universal conjunct shows a bare name resolves through
`refs/heads/<name>` whatever else the table holds; the concrete conjuncts exercise,
on `repoR` (holding both `refs/heads/branch = "e5"` and `refs/tags/branch = "f6"`),
the bare-name precedence of heads over tags, the exact `refs/` rule, the `heads/`
qualified rule, the bare tag fallback, and the remote-tracking rule. -/
theorem resolve_ref_rule_order :
    (∀ (refs : List (String × String)) (s c : String),
        strPrefix "refs/" s = false → strPrefix "heads/" s = false →
        strPrefix "tags/" s = false →
        lookupRef refs ("refs/heads/" ++ s) = some c →
        resolveRef refs s = some c) ∧
    resolve_symbol repoR "branch" = Except.ok "e5" ∧
    resolve_symbol repoR "refs/heads/branch" = Except.ok "e5" ∧
    resolve_symbol repoR "heads/branch" = Except.ok "e5" ∧
    resolve_symbol repoR "tag" = Except.ok "f6" ∧
    resolve_symbol repoR "origin/remote-branch" = Except.ok "b2" := by
  refine ⟨?_, rfl, rfl, rfl, rfl, rfl⟩
  intro refs s c h1 h2 h3 h4
  simp [resolveRef, h1, h2, h3, h4, orO]

/-- Witness for C5: the bare name "branch" resolves to the `refs/heads` target even
though a `refs/tags` entry of the same name exists. -/
theorem resolve_ref_rule_order_witness :
    resolveRef repoR.git_refs "branch" = some "e5" :=
  resolve_ref_rule_order.1 repoR.git_refs "branch" "e5" rfl rfl rfl rfl

/-- C2: an all-hex symbol (including the empty string), not shadowed by the reserved
rules, is treated as a commit-id prefix: a unique match resolves to that commit, two
or more matches fail with `AmbiguousCommitIdPrefix(symbol)`, and zero matches fall
through to ref-table lookup, which yields `NoSuchRevision(symbol)` when no ref rule
matches either. -/
theorem resolve_symbol_hex_rule (repo : Repo) (s : String)
    (h1 : s ≠ "@") (h2 : s ≠ "root") (h3 : isHexString s = true) :
    (∀ i, prefixMatches repo s = [i] → resolve_symbol repo s = Except.ok i) ∧
    (2 ≤ (prefixMatches repo s).length →
      resolve_symbol repo s
        = Except.error (RevsetError.AmbiguousCommitIdPrefix s)) ∧
    (prefixMatches repo s = [] →
      resolve_symbol repo s =
        match resolveRef repo.git_refs s with
        | some i => Except.ok i
        | none => Except.error (RevsetError.NoSuchRevision s)) := by
  refine ⟨?_, ?_, ?_⟩
  · intro i hi
    simp [resolve_symbol, h1, h2, h3, hi]
  · intro hlen
    rcases hm : prefixMatches repo s with _ | ⟨a, _ | ⟨b, l⟩⟩
    · rw [hm] at hlen; simp at hlen
    · rw [hm] at hlen; simp at hlen
    · simp [resolve_symbol, h1, h2, h3, hm]
  · intro hz
    simp [resolve_symbol, h1, h2, h3, hz]

/-- Witness for C2 on `repoH` (ids "0454", "045f", "0468"): a unique prefix
resolves, "04" and the empty prefix are ambiguous, and the unmatched hex token
"040" falls through and fails with `NoSuchRevision`. -/
theorem resolve_symbol_hex_rule_witness :
    resolve_symbol repoH "046" = Except.ok "0468" ∧
    resolve_symbol repoH "04"
      = Except.error (RevsetError.AmbiguousCommitIdPrefix "04") ∧
    resolve_symbol repoH ""
      = Except.error (RevsetError.AmbiguousCommitIdPrefix "") ∧
    resolve_symbol repoH "040"
      = Except.error (RevsetError.NoSuchRevision "040") :=
  ⟨(resolve_symbol_hex_rule repoH "046" (by decide) (by decide) rfl).1 "0468" rfl,
   (resolve_symbol_hex_rule repoH "04" (by decide) (by decide) rfl).2.1 (by decide),
   (resolve_symbol_hex_rule repoH "" (by decide) (by decide) rfl).2.1 (by decide),
   (resolve_symbol_hex_rule repoH "040" (by decide) (by decide) rfl).2.2 rfl⟩

/-! ## Claim theorems: the Ancestors walk -/

/-- The concrete `Ancestors` evaluation on `repoA`, computed by unfolding the walk
step by step. -/
theorem eval_repoA_ancestors :
    evaluate repoA (RevsetExpression.Ancestors (RevsetExpression.Symbol "d4"))
      = Except.ok ["d4", "c3", "b2", "a1", "00"] := by
  have h1 : evaluate repoA (RevsetExpression.Ancestors (RevsetExpression.Symbol "d4"))
      = Except.ok (dfsWalk (getParents repoA) (walkUniverse repoA ["d4"]) ["d4"]) := by
    simp [evaluate, resolve_symbol, Except.map]
    rfl
  rw [h1]
  have hu : walkUniverse repoA ["d4"] = ["00", "b2", "d4", "a1", "c3"] := by decide
  have hp0 : getParents repoA "d4" = ["a1", "c3"] := rfl
  have hp1 : getParents repoA "c3" = ["b2"] := rfl
  have hp2 : getParents repoA "b2" = ["a1"] := rfl
  have hp3 : getParents repoA "a1" = ["00"] := rfl
  have hp4 : getParents repoA "00" = [] := rfl
  rw [hu]
  simp [dfsWalk, hp0, hp1, hp2, hp3, hp4, List.erase]

/-- C3: evaluating `Ancestors(e)` runs the pre-order depth-first walk from `e`'s
commits in their order with parents visited in reverse authorship order, each commit
emitted the first time it is reached; on `repoA` (chain root ← c1 ← c2 ← c3 plus
"d4" with parents ["a1", "c3"]) the query `"*:d4"` yields exactly
["d4", "c3", "b2", "a1", "00"]. -/
theorem evaluate_ancestors_dfs_order :
    (∀ (repo : Repo) (e : RevsetExpression) (S : List String),
        evaluate repo e = Except.ok S →
        evaluate repo (RevsetExpression.Ancestors e)
          = Except.ok (dfsWalk (getParents repo) (walkUniverse repo S) S)) ∧
    parse "*:d4"
      = Except.ok (RevsetExpression.Ancestors (RevsetExpression.Symbol "d4")) ∧
    evaluate repoA (RevsetExpression.Ancestors (RevsetExpression.Symbol "d4"))
      = Except.ok ["d4", "c3", "b2", "a1", "00"] := by
  refine ⟨?_, rfl, eval_repoA_ancestors⟩
  intro repo e S h
  simp [evaluate, h, Except.map]

/-- Witness for C3: the universal conjunct applied at a concrete evaluated root. -/
theorem evaluate_ancestors_dfs_order_witness :
    evaluate repoA (RevsetExpression.Ancestors (RevsetExpression.Symbol "d4"))
      = Except.ok (dfsWalk (getParents repoA) (walkUniverse repoA ["d4"]) ["d4"]) :=
  evaluate_ancestors_dfs_order.1 repoA (RevsetExpression.Symbol "d4") ["d4"] rfl

/-- C6: whenever `Ancestors(e)` evaluates successfully, its output sequence is
duplicate-free (the deduplication set is shared across the whole traversal) and
ancestor-closed: every stored parent of every emitted commit is itself emitted. -/
theorem evaluate_ancestors_closed_and_nodup (repo : Repo) (e : RevsetExpression)
    (out : List String)
    (h : evaluate repo (RevsetExpression.Ancestors e) = Except.ok out) :
    out.Nodup ∧ ∀ c ∈ out, ∀ p ∈ getParents repo c, p ∈ out := by
  rcases hev : evaluate repo e with err | S
  · rw [show evaluate repo (RevsetExpression.Ancestors e)
        = (evaluate repo e).map
            (fun S => dfsWalk (getParents repo) (walkUniverse repo S) S) from rfl,
      hev] at h
    cases h
  · rw [show evaluate repo (RevsetExpression.Ancestors e)
        = (evaluate repo e).map
            (fun S => dfsWalk (getParents repo) (walkUniverse repo S) S) from rfl,
      hev] at h
    have hout : out = dfsWalk (getParents repo) (walkUniverse repo S) S := by
      cases h; rfl
    subst hout
    refine ⟨dfsWalk_nodup _ _ _ (walkUniverse_nodup repo S), ?_⟩
    intro c hc p hp
    rcases dfsWalk_closed (getParents repo) (walkUniverse repo S) S c hc p hp with
      hin | hnot
    · exact hin
    · exact absurd (getParents_subset_walkUniverse repo S c p hp) hnot

/-- Witness for C6 at the concrete `repoA` walk. -/
theorem evaluate_ancestors_closed_and_nodup_witness :
    (["d4", "c3", "b2", "a1", "00"] : List String).Nodup ∧
    ∀ c ∈ (["d4", "c3", "b2", "a1", "00"] : List String),
      ∀ p ∈ getParents repoA c, p ∈ (["d4", "c3", "b2", "a1", "00"] : List String) :=
  evaluate_ancestors_closed_and_nodup repoA (RevsetExpression.Symbol "d4")
    ["d4", "c3", "b2", "a1", "00"] eval_repoA_ancestors

/-! ## Workspace lemmas -/

theorem parentDir_append_singleton (p : List String) (x : String) :
    parentDir (p ++ [x]) = some p := by
  cases hp : p ++ [x] with
  | nil => simp at hp
  | cons a rest =>
    rw [show parentDir (a :: rest) = some ((a :: rest).dropLast) from rfl]
    rw [← hp, List.dropLast_concat]

theorem find_repo_dir_hit (fs : FileSystem) (p : List String)
    (h : isDir fs (p ++ [".jj"]) = true) :
    find_repo_dir fs p = some (p ++ [".jj"]) := by
  rw [find_repo_dir]
  simp [h]

theorem find_repo_dir_step (fs : FileSystem) (p q : List String)
    (h : isDir fs (p ++ [".jj"]) = false) (hq : parentDir p = some q) :
    find_repo_dir fs p = find_repo_dir fs q := by
  rw [find_repo_dir]
  simp only [h, Bool.false_eq_true, if_false]
  split
  · rename_i q' hq'
    rw [hq] at hq'
    cases hq'
    rfl
  · rename_i hq'
    rw [hq] at hq'
    cases hq'

theorem find_repo_dir_at_root (fs : FileSystem)
    (h : isDir fs ([".jj"] : List String) = false) :
    find_repo_dir fs [] = none := by
  rw [find_repo_dir]
  simp [h, parentDir]

theorem parentDir_some (p q : List String) (hq : parentDir p = some q) :
    q = p.dropLast ∧ p ≠ [] := by
  cases p with
  | nil => simp [parentDir] at hq
  | cons a rest =>
    simp only [parentDir, Option.some.injEq] at hq
    exact ⟨hq.symm, by simp⟩

theorem take_of_parentDir (p q : List String) (hq : parentDir p = some q) :
    q.length + 1 = p.length ∧ ∀ k ≤ q.length, q.take k = p.take k := by
  obtain ⟨hdrop, hne⟩ := parentDir_some p q hq
  have hpos : 0 < p.length := List.length_pos.mpr hne
  have hlen : q.length = p.length - 1 := by
    rw [hdrop, List.length_dropLast]
  constructor
  · omega
  · intro k hk
    rw [hdrop, List.dropLast_eq_take, List.take_take]
    congr 1
    omega

/-- The search `find_repo_dir` returns `none` exactly when no prefix of the path (the path
itself or an ancestor directory, encoded as `p.take k`) contains a `.jj`
directory. -/
theorem find_repo_dir_none_iff (fs : FileSystem) (p : List String) :
    find_repo_dir fs p = none ↔
      ∀ k ≤ p.length, isDir fs (p.take k ++ [".jj"]) = false := by
  induction p using find_repo_dir.induct fs with
  | case1 p h =>
    rw [find_repo_dir_hit fs p h]
    simp only [reduceCtorEq, false_iff, not_forall]
    refine ⟨p.length, le_rfl, ?_⟩
    rw [List.take_length]
    simp [h]
  | case2 p h q hq ih =>
    rw [find_repo_dir_step fs p q (by simpa using h) hq, ih]
    obtain ⟨hlen, htake⟩ := take_of_parentDir p q hq
    constructor
    · intro hall k hk
      rcases Nat.lt_or_ge k p.length with hlt | hge
      · have hkq : k ≤ q.length := by omega
        rw [← htake k hkq]
        exact hall k hkq
      · have hkp : k = p.length := by omega
        subst hkp
        rw [List.take_length]
        simpa using h
    · intro hall k hk
      rw [htake k hk]
      exact hall k (by omega)
  | case3 p h hq =>
    have hnil : p = [] := by
      cases p with
      | nil => rfl
      | cons a rest => simp [parentDir] at hq
    subst hnil
    rw [find_repo_dir_at_root fs (by simpa using h)]
    simp only [true_iff]
    intro k hk
    have hk0 : k = 0 := by simpa using hk
    subst hk0
    simpa using h

/-- When `find_repo_dir` returns a repo directory, it is `<prefix>/.jj` for the
deepest prefix of the path whose `.jj` is a directory. -/
theorem find_repo_dir_some_spec (fs : FileSystem) (p : List String) :
    ∀ r, find_repo_dir fs p = some r →
      ∃ k, k ≤ p.length ∧ r = p.take k ++ [".jj"] ∧ isDir fs r = true ∧
        ∀ j, k < j → j ≤ p.length → isDir fs (p.take j ++ [".jj"]) = false := by
  induction p using find_repo_dir.induct fs with
  | case1 p h =>
    intro r hr
    rw [find_repo_dir_hit fs p h] at hr
    cases hr
    refine ⟨p.length, le_rfl, by rw [List.take_length], h, ?_⟩
    intro j hj1 hj2
    omega
  | case2 p h q hq ih =>
    intro r hr
    rw [find_repo_dir_step fs p q (by simpa using h) hq] at hr
    obtain ⟨k, hk, hrq, hdir, hmax⟩ := ih r hr
    obtain ⟨hlen, htake⟩ := take_of_parentDir p q hq
    refine ⟨k, by omega, by rw [← htake k hk]; exact hrq, hdir, ?_⟩
    intro j hj1 hj2
    rcases Nat.lt_or_ge j p.length with hlt | hge
    · have hjq : j ≤ q.length := by omega
      rw [← htake j hjq]
      exact hmax j hj1 hjq
    · have hjp : j = p.length := by omega
      subst hjp
      rw [List.take_length]
      simpa using h
  | case3 p h hq =>
    intro r hr
    have hnil : p = [] := by
      cases p with
      | nil => rfl
      | cons a rest => simp [parentDir] at hq
    subst hnil
    rw [find_repo_dir_at_root fs (by simpa using h)] at hr
    cases hr

/-! ## Claim theorems: workspace loading and initialization -/

/-- C9: `Workspace::load` fails with `NoWorkspaceHere(workspace_path)` exactly when
neither the workspace path nor any of its ancestor directories (the prefixes
`p.take k`) contains a `.jj` directory; otherwise it succeeds and the workspace root
is the parent `p.take k` of the nearest (deepest) such `.jj` directory. -/
theorem workspace_load_characterization (fs : FileSystem) (p : List String) :
    (Workspace.load fs p = Except.error (WorkspaceLoadError.NoWorkspaceHere p) ↔
      ∀ k ≤ p.length, isDir fs (p.take k ++ [".jj"]) = false) ∧
    (∀ r, Workspace.load fs p = Except.ok r →
      isDir fs (r ++ [".jj"]) = true ∧
      ∃ k, k ≤ p.length ∧ r = p.take k ∧
        ∀ j, k < j → j ≤ p.length → isDir fs (p.take j ++ [".jj"]) = false) := by
  constructor
  · rcases hf : find_repo_dir fs p with _ | rp
    · simpa [Workspace.load, hf] using (find_repo_dir_none_iff fs p).mp hf
    · simp only [Workspace.load, hf]
      constructor
      · intro hbad
        cases hbad
      · intro hall
        have := (find_repo_dir_none_iff fs p).mpr hall
        rw [hf] at this
        cases this
  · intro r hr
    rcases hf : find_repo_dir fs p with _ | rp
    · rw [show Workspace.load fs p
          = match find_repo_dir fs p with
            | none => Except.error (WorkspaceLoadError.NoWorkspaceHere p)
            | some repo_path => Except.ok ((parentDir repo_path).getD []) from rfl,
        hf] at hr
      cases hr
    · rw [show Workspace.load fs p
          = match find_repo_dir fs p with
            | none => Except.error (WorkspaceLoadError.NoWorkspaceHere p)
            | some repo_path => Except.ok ((parentDir repo_path).getD []) from rfl,
        hf] at hr
      obtain ⟨k, hk, hrp, hdir, hmax⟩ := find_repo_dir_some_spec fs p rp hf
      have hpar : parentDir rp = some (p.take k) := by
        rw [hrp]
        exact parentDir_append_singleton (p.take k) ".jj"
      have hrtake : r = p.take k := by
        cases hr
        rw [hpar]
        rfl
      subst hrtake
      refine ⟨by rw [← hrp]; exact hdir, k, hk, rfl, hmax⟩

/-- Witness computation for C9: loading `fsLoad` from `home/user/proj` finds the
repo directory at `home/user/.jj`. -/
theorem load_fsLoad :
    Workspace.load fsLoad ["home", "user", "proj"] = Except.ok ["home", "user"] := by
  have h2 : parentDir ["home", "user", "proj"] = some ["home", "user"] := rfl
  have h4 := find_repo_dir_step fsLoad ["home", "user", "proj"] ["home", "user"]
    rfl h2
  have h5 := find_repo_dir_hit fsLoad ["home", "user"] rfl
  simp [Workspace.load, h4, h5, parentDir]

/-- Witness for C9: the success characterization applied at the concrete load. -/
theorem workspace_load_characterization_witness :
    isDir fsLoad ((["home", "user"] : List String) ++ [".jj"]) = true ∧
    ∃ k, k ≤ (["home", "user", "proj"] : List String).length ∧
      (["home", "user"] : List String) = (["home", "user", "proj"] : List String).take k ∧
      ∀ j, k < j → j ≤ (["home", "user", "proj"] : List String).length →
        isDir fsLoad ((["home", "user", "proj"] : List String).take j ++ [".jj"]) = false :=
  (workspace_load_characterization fsLoad ["home", "user", "proj"]).2
    ["home", "user"] load_fsLoad

/-- C10: each of the three workspace-init entry points fails with
`DestinationExists(<workspace_root>/.jj)` whenever a `.jj` entry (directory or file)
already exists under the workspace root, and in that case returns with the
filesystem state unchanged — the quantification over the arbitrary continuation
`rest` (standing for the repository and working-copy creation, which is not in the
source tree) shows no such state can have been created. -/
theorem workspace_init_destination_exists :
    (∀ (rest : FileSystem → List String → FileSystem) (fs : FileSystem)
        (root : List String), pathExists fs (root ++ [".jj"]) = true →
        Workspace.init_local rest fs root
          = (Except.error (WorkspaceInitError.DestinationExists (root ++ [".jj"])), fs)) ∧
    (∀ (rest : FileSystem → List String → FileSystem) (fs : FileSystem)
        (root : List String), pathExists fs (root ++ [".jj"]) = true →
        Workspace.init_internal_git rest fs root
          = (Except.error (WorkspaceInitError.DestinationExists (root ++ [".jj"])), fs)) ∧
    (∀ (rest : FileSystem → List String → List String → FileSystem)
        (fs : FileSystem) (root git : List String),
        pathExists fs (root ++ [".jj"]) = true →
        Workspace.init_external_git rest fs root git
          = (Except.error (WorkspaceInitError.DestinationExists (root ++ [".jj"])), fs)) := by
  refine ⟨?_, ?_, ?_⟩
  · intro rest fs root h
    simp [Workspace.init_local, create_jj_dir, h]
  · intro rest fs root h
    simp [Workspace.init_internal_git, create_jj_dir, h]
  · intro rest fs root git h
    simp [Workspace.init_external_git, create_jj_dir, h]

/-- Witness for C10 on `fsInit`, where `work/.jj` exists as a plain file. -/
theorem workspace_init_destination_exists_witness :
    Workspace.init_local (fun f _ => f) fsInit ["work"]
      = (Except.error (WorkspaceInitError.DestinationExists ["work", ".jj"]), fsInit) ∧
    Workspace.init_internal_git (fun f _ => f) fsInit ["work"]
      = (Except.error (WorkspaceInitError.DestinationExists ["work", ".jj"]), fsInit) ∧
    Workspace.init_external_git (fun f _ _ => f) fsInit ["work"] ["srv", "git"]
      = (Except.error (WorkspaceInitError.DestinationExists ["work", ".jj"]), fsInit) :=
  ⟨workspace_init_destination_exists.1 (fun f _ => f) fsInit ["work"] rfl,
   workspace_init_destination_exists.2.1 (fun f _ => f) fsInit ["work"] rfl,
   workspace_init_destination_exists.2.2 (fun f _ _ => f) fsInit ["work"] ["srv", "git"] rfl⟩
